import Mathlib

/-!
Shallow embedding of the `pandas-db` repository (package `pandasdb`) for
verification of its specification.

The embedding covers:
* the Positional Index Resolver (`IndexLoc.__getitem__` in `src/pandasdb/table.py`),
* the View Materializer (`Table.filter`, `Table.sort_values`,
  `Table._create_and_get_temp_view` in `src/pandasdb/table.py`),
* the Bounded Result Cache (`Cache.execute`, `Cache.populate_table`,
  `Cache.is_ready` in `src/pandasdb/cache.py`),
* the helpers `sql_tuple` and `convert_type_to_sql` from `src/pandasdb/utils.py`.

A relation (a base table or a view) is modelled as a `List α` of rows in its
declared order; the SQLite rowid of the row at position `p` is `p + 1`
(identity columns are 1-based and contiguous, which is what `IndexLoc`
relies on).  Python exceptions are modelled with `Except` and the
error type `PdbError`.  Megabyte sizes (Python floats) are modelled as `ℚ`.
-/

namespace PandasDb

/-- Errors raised by the Python code, by exception type and payload.
`indexError i` is `IndexError(f«Given index out of range ({i})»)` raised by
`IndexLoc.validate_index`: it records the integer named in the message.
`listIndexError` is the Python `IndexError` raised by `fetchall()[0]` on an
empty list; `keyError i` is the `KeyError` raised by `idx_row_mapping[idx]`;
`typeError` is the `TypeError` for unsupported request shapes; `valueError`
is the `ValueError` raised by `Table._create_and_get_temp_view`;
`viewAlreadyExists` is raised by `utils.create_temp_view`. -/
inductive PdbError where
  | indexError (idx : Int)
  | listIndexError
  | keyError (idx : Int)
  | typeError
  | valueError
  | viewAlreadyExists
  deriving DecidableEq, Repr

/-- Embedding of `IndexLoc.index_abs` (src/pandasdb/table.py): normalize a negative index
to `len + idx`, leave a non-negative one unchanged. -/
def index_abs (len : Int) (idx : Int) : Int :=
  if idx < 0 then len + idx else idx

/-- Embedding of `IndexLoc.validate_index` (src/pandasdb/table.py): raise
`IndexError(f«Given index out of range ({idx})»)` unless `0 ≤ idx < len`.
The error payload is the (already normalized) index that appears in the
message. -/
def validate_index (len : Int) (idx : Int) : Except PdbError Unit :=
  if 0 ≤ idx ∧ idx < len then Except.ok () else Except.error (PdbError.indexError idx)

/-- Storage-engine evaluation of
`SELECT _rowid_, <cols> FROM t WHERE _rowid_ IN (<ids>)` over the suffix of the
relation whose first row has rowid `cur`: rows are scanned in storage order and
a row is kept exactly when its rowid is in `ids`.  Per the SQLite
documentation an empty `IN ()` list is permitted and matches no row. -/
def fetchInFrom (rows : List α) (cur : Int) (ids : List Int) : List (Int × α) :=
  match rows with
  | [] => []
  | r :: rs =>
    if cur ∈ ids then (cur, r) :: fetchInFrom rs (cur + 1) ids
    else fetchInFrom rs (cur + 1) ids

/-- Engine evaluation of the rowid-membership fetch over a whole relation
(rowids start at 1). -/
def fetchIn (rows : List α) (ids : List Int) : List (Int × α) :=
  fetchInFrom rows 1 ids

/-- Engine evaluation of `SELECT <cols> FROM t WHERE _rowid_ == id`
(the single-index query selects the data columns only, not the rowid). -/
def fetchEq (rows : List α) (id : Int) : List α :=
  (fetchIn rows [id]).map Prod.snd

/-- Handling of the fetch result in the int branch: `cursor.execute(query).fetchall()[0]`.
Indexing an empty Python list raises `IndexError`; on a non-empty list the
first row is returned and any further rows are ignored. -/
def takeFirstRow (fetched : List α) : Except PdbError α :=
  match fetched with
  | [] => Except.error PdbError.listIndexError
  | r :: _ => Except.ok r

/-- Embedding of `IndexLoc.__getitem__` with an `int` index (src/pandasdb/table.py):
normalize, validate, shift by +1 into rowid space, fetch
`WHERE _rowid_ == index`, and return `fetchall()[0]`. -/
def ilocInt (rows : List α) (index : Int) : Except PdbError α :=
  let len : Int := rows.length
  let idx := index_abs len index
  match validate_index len idx with
  | Except.error e => Except.error e
  | Except.ok () => takeFirstRow (fetchEq rows (idx + 1))

/-- Embedding of the validation loop in the list branch of
`IndexLoc.__getitem__`: `for idx in indexes: self.validate_index(idx)` —
the first invalid index raises. -/
def validateAll (len : Int) : List Int → Except PdbError Unit
  | [] => Except.ok ()
  | i :: rest =>
    match validate_index len i with
    | Except.error e => Except.error e
    | Except.ok () => validateAll len rest

/-- Embedding of `[idx_row_mapping[idx] for idx in indexes]` in the list
branch of `IndexLoc.__getitem__`: expand the position-to-row mapping built
from the batched fetch back into the requested order; a missing key raises
`KeyError` (at the first missing index, as the comprehension evaluates left
to right). -/
def expandRows (mapping : List (Int × α)) : List Int → Except PdbError (List α)
  | [] => Except.ok []
  | i :: rest =>
    match mapping.lookup i with
    | none => Except.error (PdbError.keyError i)
    | some r =>
      match expandRows mapping rest with
      | Except.error e => Except.error e
      | Except.ok out => Except.ok (r :: out)

/-- The first requested identity missing from the fetched mapping, in
request order: the one whose `idx_row_mapping[idx]` lookup raises the
`KeyError` in the list-branch comprehension (or `none` when every requested
identity was fetched). -/
def firstMissing (mapping : List (Int × α)) : List Int → Option Int
  | [] => none
  | i :: rest =>
    if (mapping.lookup i).isSome then firstMissing mapping rest else some i

/-- Embedding of `IndexLoc.__getitem__` with a `list` index
(src/pandasdb/table.py): normalize every index, validate every normalized
index, shift by +1 into rowid space, deduplicate into an identity set, issue
one batched fetch `WHERE _rowid_ IN (...)`, build the rowid-to-row mapping
from the fetch, and re-expand preserving the requested order and duplicate
count. -/
def ilocList (rows : List α) (index : List Int) : Except PdbError (List α) :=
  let len : Int := rows.length
  let indexes := index.map (index_abs len)
  match validateAll len indexes with
  | Except.error e => Except.error e
  | Except.ok () =>
    let indexes1 := indexes.map (· + 1)
    let fetched := fetchIn rows indexes1.dedup
    expandRows fetched indexes1

/-- Embedding of `utils.convert_type_to_sql` restricted to the integer case
used for rowids: an int is rendered with `str(x)`. -/
def convert_type_to_sql (x : Int) : String :=
  toString x

/-- Embedding of `utils.sql_tuple`: join the rendered elements with a comma
and wrap in parentheses.  On an empty collection this yields the two-character
string of an opening and a closing parenthesis. -/
def sql_tuple (it : List Int) : String :=
  "(" ++ String.intercalate ", " (it.map convert_type_to_sql) ++ ")"

/-- Embedding of the CPython clamping step of `slice.indices(length)` for an
explicitly given endpoint: a negative endpoint is shifted by the length and
then clamped to the valid window, whose bounds depend on the sign of the
step. -/
def clampEndpoint (v : Int) (len : Int) (stepNeg : Bool) : Int :=
  if v < 0 then
    let v1 := v + len
    if v1 < 0 then (if stepNeg then -1 else 0) else v1
  else if len ≤ v then (if stepNeg then len - 1 else len)
  else v

/-- Number of elements of the Python range `range(start, stop, step)` for a
nonzero step (the ceiling of `(stop - start) / step`, clamped at zero). -/
def rangeSize (start stop step : Int) : Nat :=
  if 0 < step then ((stop - start + step - 1) / step).toNat
  else ((start - stop + (-step) - 1) / (-step)).toNat

/-- Elements of the Python range `range(start, stop, step)`. -/
def rangeList (start stop step : Int) : List Int :=
  (List.range (rangeSize start stop step)).map (fun k => start + step * (k : Int))

/-- Embedding of `index.indices(self.len)` followed by
`[idx + 1 for idx in range(*indices)]` in the slice branch of
`IndexLoc.__getitem__`: the absolute 0-based positions of the slice, shifted
by +1 into rowid space.  A missing start, stop or step takes the Python
default for the sign of the step. -/
def sliceIds (len : Nat) (start stop step : Option Int) : List Int :=
  let stepv := step.getD 1
  let stepNeg := stepv < 0
  let startv := (start.map (fun v => clampEndpoint v (len : Int) stepNeg)).getD
    (if stepNeg then (len : Int) - 1 else 0)
  let stopv := (stop.map (fun v => clampEndpoint v (len : Int) stepNeg)).getD
    (if stepNeg then -1 else (len : Int))
  (rangeList startv stopv stepv).map (· + 1)

/-- Text of the membership clause of the slice-branch query
`SELECT <cols> FROM <name> WHERE _rowid_ IN <sql_tuple(indexes)>`: the part
built from the rowid list by `sql_tuple`. -/
def sliceInClause (ids : List Int) : String :=
  "WHERE _rowid_ IN " ++ sql_tuple ids

/-- Embedding of `IndexLoc.__getitem__` with a `slice` index
(src/pandasdb/table.py): normalize the slice against the cached length, shift
into rowid space, and issue the membership fetch without any empty-list
short-circuit: even an empty rowid list is rendered by `sql_tuple` (as an
empty parenthesised list) and submitted to the engine.  A zero step raises
`ValueError` inside `slice.indices`; for any other slice SQLite evaluates the
membership query (an empty `IN ()` list is accepted and matches no row) and
the rows come back in storage order. -/
def ilocSlice (rows : List α) (start stop step : Option Int) : Except PdbError (List α) :=
  if step = some 0 then Except.error PdbError.valueError
  else
    let ids := sliceIds rows.length start stop step
    Except.ok ((fetchIn rows ids).map Prod.snd)

/-- Embedding of `ROW_NUMBER() OVER (...)` rank assignment: pair each row of
the already-ordered window with its 1-based rank, counting from `cur`. -/
def rowNumberFrom (cur : Int) : List α → List (Int × α)
  | [] => []
  | x :: xs => (cur, x) :: rowNumberFrom (cur + 1) xs

/-- Rank assignment starting at 1, as `ROW_NUMBER()` does. -/
def rowNumberOver (rows : List α) : List (Int × α) :=
  rowNumberFrom 1 rows

/-- Consecutive integers `cur, cur + 1, ...` of the given count. -/
def rangeFrom (cur : Int) : Nat → List Int
  | 0 => []
  | n + 1 => cur :: rangeFrom (cur + 1) n

/-- Identity values 1, 2, ..., n as a list of integers. -/
def range1 (n : Nat) : List Int :=
  rangeFrom 1 n

/-- Embedding of the query built by `Table.filter` (src/pandasdb/table.py):
`SELECT ROW_NUMBER() OVER (ORDER BY _rowid_) AS _rowid_, <cols> FROM <name>
WHERE <expression>`.  The base relation is a list of (rowid, row) pairs; the
predicate filters the rows, the window orders the survivors by their original
rowid, and `ROW_NUMBER` assigns the fresh 1-based identity of the view. -/
def filterView (base : List (Int × α)) (pred : α → Bool) : List (Int × α) :=
  rowNumberOver
    ((List.insertionSort (fun p q : Int × α => p.1 ≤ q.1)
      (base.filter (fun p => pred p.2))).map Prod.snd)

/-- Embedding of the query built by `Table.sort_values` (src/pandasdb/table.py):
`SELECT ROW_NUMBER() OVER (ORDER BY <order_by>) AS _rowid_, <cols> FROM <name>`.
All rows of the base relation are ordered by the sort key and `ROW_NUMBER`
assigns the fresh 1-based identity over that final order. -/
def sortView (rows : List α) (key : α → Int) : List (Int × α) :=
  rowNumberOver (List.insertionSort (fun a b => key a ≤ key b) rows)

/-- Whether the pattern is a prefix of the character list. -/
def headMatches : List Char → List Char → Bool
  | [], _ => true
  | _ :: _, [] => false
  | p :: ps, c :: cs => p == c && headMatches ps cs

/-- Whether the pattern occurs as a contiguous subsequence of the character
list (Python substring membership, `pat in s`). -/
def hasSubSeq (pat : List Char) : List Char → Bool
  | [] => headMatches pat []
  | c :: rest => headMatches pat (c :: rest) || hasSubSeq pat rest

/-- Test used by `Table._create_and_get_temp_view` to accept a backing query:
`if «AS _rowid_» not in query` — a literal substring check on the query
text. -/
def queryHasRowidAlias (q : String) : Bool :=
  hasSubSeq "AS _rowid_".data q.data

/-- Embedding of `Table._create_and_get_temp_view` (src/pandasdb/table.py)
acting on the session view registry: a query without the literal rowid alias
raises `ValueError` before anything is created; a duplicate view name raises
`ViewAlreadyExists` (from `utils.create_temp_view`); otherwise the view is
registered.  The returned list is the updated registry. -/
def createAndGetTempView (views : List String) (viewName : String) (query : String) :
    Except PdbError (List String) :=
  if queryHasRowidAlias query = false then Except.error PdbError.valueError
  else if viewName ∈ views then Except.error PdbError.viewAlreadyExists
  else Except.ok (views ++ [viewName])

/-- A concrete 20-row relation used as a test input: row at position `p`
holds the value `p`. -/
def rows20 : List Int :=
  (List.range 20).map (fun k => (k : Int))

/-- A database row, as returned by `Cursor.fetchall()`. -/
abbrev Row := List Int

/-- The result of one query: a list of rows. -/
abbrev QueryOut := List Row

/-- The storage engine as seen through `src/pandasdb/cache.py`: `run` is
`conn.execute(query).fetchall()` and `size` is
`utils.get_mb_size(query, query_out)`, the combined serialized size in
megabytes of the query text and its result (a Python float, modelled as a
rational).  The engine is pure: the schema and data are fixed for the
session, so repeated runs of one query agree. -/
structure Engine where
  run : String → QueryOut
  size : String → QueryOut → ℚ

/-- Configuration of `Cache.__init__` (src/pandasdb/cache.py): the
`cache_output` switch and the two megabyte budgets `max_item_size` and
`max_dict_size`. -/
structure CacheConfig where
  cacheOutput : Bool
  maxItemSize : ℚ
  maxDictSize : ℚ
  deriving Repr

/-- Mutable state of a `Cache`: the key-to-result mapping (the dict, in
insertion order), the running `mb_size` counter, and `_ready_count`. -/
structure CacheState where
  entries : List (String × QueryOut)
  mbSize : ℚ
  readyCount : Nat
  deriving Repr

/-- State set up by `Cache.__init__`: empty dict, `mb_size = 0`,
`_ready_count = 0`. -/
def initState : CacheState :=
  ⟨[], 0, 0⟩

/-- Embedding of `Cache.execute` (src/pandasdb/cache.py).  Returns the query
result, the successor state, and the number of storage-engine executions
performed (0 on a key hit, 1 otherwise).  With caching off the engine is
always consulted and the state untouched.  On a key hit the stored rows are
returned with no engine round-trip.  On a miss the engine runs, the combined
size of query and output is measured, and the entry is admitted exactly when
`out_size ≤ max_item_size` and `out_size + mb_size ≤ max_dict_size`; a
rejected entry leaves the state unchanged while the computed result is still
returned. -/
def cacheExecute (cfg : CacheConfig) (eng : Engine) (s : CacheState) (q : String) :
    QueryOut × CacheState × Nat :=
  if cfg.cacheOutput = false then (eng.run q, s, 1)
  else
    match s.entries.lookup q with
    | some v => (v, s, 0)
    | none =>
      let out := eng.run q
      let outSize := eng.size q out
      if outSize ≤ cfg.maxItemSize ∧ outSize + s.mbSize ≤ cfg.maxDictSize then
        (out, ⟨s.entries ++ [(q, out)], s.mbSize + outSize, s.readyCount⟩, 1)
      else (out, s, 1)

/-- Embedding of `Cache.populate_table` (src/pandasdb/cache.py): run the
descriptive queries of one table through `execute` (their exact text depends
on the table and is abstracted as the list `qs`), then increment
`_ready_count`. -/
def populateTable (cfg : CacheConfig) (eng : Engine) (s : CacheState) (qs : List String) :
    CacheState :=
  let s1 := qs.foldl (fun acc q => (cacheExecute cfg eng acc q).2.1) s
  ⟨s1.entries, s1.mbSize, s1.readyCount + 1⟩

/-- One session step against the cache: an ad-hoc `execute` or a
`populate_table` call (as issued by the warm-up workers). -/
inductive CacheOp where
  | exec (q : String)
  | populate (qs : List String)

/-- Run one session step. -/
def runOp (cfg : CacheConfig) (eng : Engine) (s : CacheState) : CacheOp → CacheState
  | .exec q => (cacheExecute cfg eng s q).2.1
  | .populate qs => populateTable cfg eng s qs

/-- Run a session: a sequence of steps from a starting state. -/
def runOps (cfg : CacheConfig) (eng : Engine) (s : CacheState) (ops : List CacheOp) :
    CacheState :=
  ops.foldl (runOp cfg eng) s

/-- Total size of the admitted entries, each measured as the code measured it
at admission time. -/
def entriesSize (eng : Engine) (s : CacheState) : ℚ :=
  (s.entries.map (fun e => eng.size e.1 e.2)).sum

/-- The cache size invariant of the specification: the running counter equals
the sum of the admitted sizes, and it never exceeds the aggregate budget. -/
def SizeInvariant (cfg : CacheConfig) (eng : Engine) (s : CacheState) : Prop :=
  s.mbSize = entriesSize eng s ∧ s.mbSize ≤ cfg.maxDictSize

/-- Concrete admission scenario of the specification (P5), in megabyte units:
an engine whose every result is one row `[0]`, and whose measured sizes are
`0.9` for the queries `qa` and `qb` and `0.5` for `qc`. -/
def engAdm : Engine :=
  ⟨fun _ => [[0]], fun q _ => if q = "qc" then 1 / 2 else 9 / 10⟩

/-- Budgets of the concrete admission scenario: caching on,
`max_item_size = 1`, `max_dict_size = 2`. -/
def cfgAdm : CacheConfig :=
  ⟨true, 1, 2⟩

/-- State of the concrete admission scenario after the two `0.9`-unit items
have been executed (and admitted). -/
def stateAdm : CacheState :=
  runOps cfgAdm engAdm initState [CacheOp.exec "qa", CacheOp.exec "qb"]

/-- An engine whose every item measures 5 megabytes — larger than the
`max_item_size` of `cfgAdm`, so nothing is ever admitted. -/
def engBig : Engine :=
  ⟨fun _ => [[0]], fun _ _ => 5⟩

/-- An engine whose every item measures 1 megabyte. -/
def engOk : Engine :=
  ⟨fun _ => [[0]], fun _ _ => 1⟩

/-- Budgets that admit 1-megabyte items: caching on, `max_item_size = 2`,
`max_dict_size = 5`. -/
def cfgOk : CacheConfig :=
  ⟨true, 2, 5⟩

theorem fetchInFrom_eq_nil (rows : List α) (cur : Int) (ids : List Int)
    (h : ∀ id ∈ ids, id < cur) : fetchInFrom rows cur ids = [] := by
  induction rows generalizing cur with
  | nil => rfl
  | cons x xs ih =>
    have hx : cur ∉ ids := fun hm => absurd (h cur hm) (lt_irrefl cur)
    simp only [fetchInFrom, if_neg hx]
    exact ih (cur + 1) (fun id hm => by have := h id hm; omega)

theorem fetchInFrom_singleton (d : α) (rows : List α) (cur id : Int)
    (hcur : cur ≤ id) (hlt : id - cur < (rows.length : Int)) :
    fetchInFrom rows cur [id] = [(id, rows.getD (id - cur).toNat d)] := by
  induction rows generalizing cur with
  | nil => simp only [List.length_nil, Nat.cast_zero] at hlt; omega
  | cons x xs ih =>
    by_cases hceq : cur = id
    · subst hceq
      have hrest : fetchInFrom xs (cur + 1) [cur] = [] :=
        fetchInFrom_eq_nil _ _ _ (by intro i hi; simp only [List.mem_singleton] at hi; omega)

      simp [fetchInFrom, hrest]
    · have hmem : cur ∉ ([id] : List Int) := by
        simp only [List.mem_singleton]; exact hceq
      have hts : (id - cur).toNat = (id - (cur + 1)).toNat + 1 := by omega
      simp only [fetchInFrom, if_neg hmem]
      rw [ih (cur + 1) (by omega) (by simp only [List.length_cons] at hlt; push_cast at hlt ⊢; omega)]
      rw [hts, List.getD_cons_succ]

/-- C1 (counterexample).  The claim states that an out-of-range request
raises a bounds error naming the offending index.  On the two-row relation
`[10, 20]`, the request `-3` is out of range, but the raised `IndexError`
names `-1` — the already-normalized value `length + (-3)` — not the
offending index `-3` that the caller passed. -/
theorem iloc_int_bounds_error_cex :
    ilocInt ([10, 20] : List Int) (-3) = Except.error (PdbError.indexError (-1)) ∧
    ((-1 : Int) = -3 → False) := by
  refine ⟨rfl, by decide⟩

/-- C1 (amended).  For a relation of length `n` and any `i` with
`-n ≤ i < n`, the single-index positional request returns the row at the
normalized position of `i` in declared order (negative `i` counts from the
end); for `i` outside `[-n, n)` it raises a bounds error whose named index is
the normalized index `index_abs n i` (that is, `i` itself when `i ≥ 0`, and
`n + i` when `i < 0`). -/
theorem iloc_int_agreement (d : α) (rows : List α) (i : Int) :
    (-(rows.length : Int) ≤ i → i < (rows.length : Int) →
      ilocInt rows i =
        Except.ok (rows.getD (index_abs (rows.length : Int) i).toNat d)) ∧
    ((i < -(rows.length : Int) ∨ (rows.length : Int) ≤ i) →
      ilocInt rows i =
        Except.error (PdbError.indexError (index_abs (rows.length : Int) i))) := by
  constructor
  · intro h1 h2
    have hidx : 0 ≤ index_abs (rows.length : Int) i ∧
        index_abs (rows.length : Int) i < (rows.length : Int) := by
      unfold index_abs; split <;> omega
    have hfetch := fetchInFrom_singleton d rows 1 (index_abs (rows.length : Int) i + 1)
      (by omega) (by omega)
    have hsub : index_abs (rows.length : Int) i + 1 - 1 = index_abs (rows.length : Int) i := by
      omega
    rw [hsub] at hfetch
    simp [ilocInt, validate_index, hidx.1, hidx.2, fetchEq, fetchIn, hfetch, takeFirstRow]
  · intro h
    have hidx : ¬(0 ≤ index_abs (rows.length : Int) i ∧
        index_abs (rows.length : Int) i < (rows.length : Int)) := by
      unfold index_abs; split <;> omega
    simp [ilocInt, validate_index, hidx]

/-- C1 (witness).  On the three-row relation `[10, 20, 30]`: the request `-1`
returns the last row `30`, and the request `3` raises the bounds error naming
`3`. -/
theorem iloc_int_agreement_wit :
    ilocInt ([10, 20, 30] : List Int) (-1) = Except.ok 30 ∧
    ilocInt ([10, 20, 30] : List Int) 3 = Except.error (PdbError.indexError 3) := by
  constructor
  · exact ((iloc_int_agreement (0 : Int) [10, 20, 30] (-1)).1
      (by decide) (by decide)).trans rfl
  · exact ((iloc_int_agreement (0 : Int) [10, 20, 30] 3).2 (Or.inr (by decide))).trans rfl

theorem map_fst_rowNumberFrom (l : List α) (cur : Int) :
    (rowNumberFrom cur l).map Prod.fst = rangeFrom cur l.length := by
  induction l generalizing cur with
  | nil => rfl
  | cons x xs ih => simp [rowNumberFrom, rangeFrom, ih]

theorem map_snd_rowNumberFrom (l : List α) (cur : Int) :
    (rowNumberFrom cur l).map Prod.snd = l := by
  induction l generalizing cur with
  | nil => rfl
  | cons x xs ih => simp [rowNumberFrom, ih]

theorem map_fst_rowNumberOver (l : List α) :
    (rowNumberOver l).map Prod.fst = range1 l.length := by
  rw [rowNumberOver, map_fst_rowNumberFrom, range1]

/-- C2.  Materializing a view by filtering a base relation assigns the
synthetic identity column exactly the contiguous values `1..k`, where `k` is
the number of matching rows, whatever the matching rows' original rowids
were; and a view materialized with an ordering carries the identity `1..n`
assigned over the final sorted row order (its data column, position by
position, is the sort of the base rows by the key — a sorted permutation of
the base — and position `p` carries identity `p + 1`). -/
theorem view_identity_contiguous (base : List (Int × α)) (pred : α → Bool)
    (rows : List α) (key : α → Int) :
    (filterView base pred).map Prod.fst
        = range1 ((base.filter (fun p => pred p.2)).length) ∧
    (sortView rows key).map Prod.fst = range1 rows.length ∧
    (sortView rows key).map Prod.snd
        = List.insertionSort (fun a b => key a ≤ key b) rows ∧
    List.Sorted (fun a b => key a ≤ key b) ((sortView rows key).map Prod.snd) ∧
    ((sortView rows key).map Prod.snd).Perm rows := by
  haveI htot : IsTotal α (fun a b => key a ≤ key b) := ⟨fun a b => le_total _ _⟩
  haveI htrans : IsTrans α (fun a b => key a ≤ key b) := ⟨fun _ _ _ h1 h2 => le_trans h1 h2⟩
  refine ⟨?_, ?_, ?_, ?_, ?_⟩
  · rw [filterView, map_fst_rowNumberOver]
    simp [List.length_insertionSort]
  · rw [sortView, map_fst_rowNumberOver, List.length_insertionSort]
  · rw [sortView, rowNumberOver, map_snd_rowNumberFrom]
  · rw [sortView, rowNumberOver, map_snd_rowNumberFrom]
    exact List.sorted_insertionSort _ _
  · rw [sortView, rowNumberOver, map_snd_rowNumberFrom]
    exact List.perm_insertionSort _ _

theorem lookup_fetchInFrom (d : α) (rows : List α) (cur : Int) (ids : List Int) (id : Int)
    (hcur : cur ≤ id) (hlt : id - cur < (rows.length : Int)) (hmem : id ∈ ids) :
    (fetchInFrom rows cur ids).lookup id = some (rows.getD (id - cur).toNat d) := by
  induction rows generalizing cur with
  | nil => simp only [List.length_nil, Nat.cast_zero] at hlt; omega
  | cons x xs ih =>
    by_cases hceq : cur = id
    · subst hceq
      simp only [fetchInFrom, if_pos hmem, List.lookup, beq_self_eq_true, sub_self,
        Int.toNat_zero, List.getD_cons_zero]
    · have hne : (id == cur) = false := beq_eq_false_iff_ne.mpr (fun h => hceq h.symm)
      have hlt2 : id - (cur + 1) < (xs.length : Int) := by
        simp only [List.length_cons] at hlt; push_cast at hlt ⊢; omega
      have hts : (id - cur).toNat = (id - (cur + 1)).toNat + 1 := by omega
      have htail := ih (cur + 1) (by omega) hlt2
      rcases Decidable.em (cur ∈ ids) with hc | hc
      · simp only [fetchInFrom, if_pos hc, List.lookup, hne, htail, hts, List.getD_cons_succ]
      · simp only [fetchInFrom, if_neg hc, htail, hts, List.getD_cons_succ]

theorem validateAll_ok (len : Int) (l : List Int) (h : ∀ i ∈ l, 0 ≤ i ∧ i < len) :
    validateAll len l = Except.ok () := by
  induction l with
  | nil => rfl
  | cons i rest ih =>
    have hi := h i (List.mem_cons_self i rest)
    simp only [validateAll, validate_index, if_pos hi]
    exact ih (fun j hj => h j (List.mem_cons_of_mem _ hj))

theorem expandRows_ok (mapping : List (Int × α)) (ids : List Int) (f : Int → α)
    (h : ∀ id ∈ ids, mapping.lookup id = some (f id)) :
    expandRows mapping ids = Except.ok (ids.map f) := by
  induction ids with
  | nil => rfl
  | cons i rest ih =>
    simp only [expandRows, h i (List.mem_cons_self i rest),
      ih (fun j hj => h j (List.mem_cons_of_mem _ hj)), List.map_cons]

/-- C3.  For every relation and every list of in-range indices (duplicates
and negative values allowed), the list positional request resolves via one
batched fetch over the deduplicated rowid set (that is how `ilocList` is
built) and returns exactly one row per requested index: position `j` of the
output is the row at the normalized position of request `j`, so the output
preserves the requested order and duplicate count, and its length equals the
request length. -/
theorem iloc_list_order_duplicates (d : α) (rows : List α) (index : List Int)
    (h : ∀ i ∈ index, -(rows.length : Int) ≤ i ∧ i < (rows.length : Int)) :
    ilocList rows index
      = Except.ok
          (index.map (fun i => rows.getD (index_abs (rows.length : Int) i).toNat d)) ∧
    (index.map (fun i => rows.getD (index_abs (rows.length : Int) i).toNat d)).length
      = index.length := by
  have habs : ∀ i ∈ index, 0 ≤ index_abs (rows.length : Int) i ∧
      index_abs (rows.length : Int) i < (rows.length : Int) := by
    intro i hi
    have := h i hi
    unfold index_abs; split <;> omega
  have hval : ∀ j ∈ index.map (index_abs (rows.length : Int)), 0 ≤ j ∧ j < (rows.length : Int) := by
    intro j hj
    rcases List.mem_map.mp hj with ⟨i, hi, rfl⟩
    exact habs i hi
  have hmain : expandRows
      (fetchIn rows ((index.map (index_abs (rows.length : Int))).map (· + 1)).dedup)
      ((index.map (index_abs (rows.length : Int))).map (· + 1))
      = Except.ok (((index.map (index_abs (rows.length : Int))).map (· + 1)).map
          (fun id => rows.getD (id - 1).toNat d)) := by
    apply expandRows_ok
    intro id hid
    have hid2 : id ∈ ((index.map (index_abs (rows.length : Int))).map (· + 1)).dedup :=
      List.mem_dedup.mpr hid
    rcases List.mem_map.mp hid with ⟨j, hj, rfl⟩
    have hjr := hval j hj
    exact lookup_fetchInFrom d rows 1 _ _ (by omega) (by omega) hid2
  constructor
  · have hunfold : ilocList rows index = expandRows
        (fetchIn rows ((index.map (index_abs (rows.length : Int))).map (· + 1)).dedup)
        ((index.map (index_abs (rows.length : Int))).map (· + 1)) := by
      simp only [ilocList, validateAll_ok _ _ hval]
    rw [hunfold, hmain]
    simp only [List.map_map]
    refine congrArg Except.ok (List.map_congr_left ?_)
    intro i _
    simp only [Function.comp_apply, add_sub_cancel_right]
  · exact List.length_map _ _

/-- C3 (witness).  On the 20-row relation whose row at position `p` is `p`,
the request `[3, -1, 5, 3, -1]` is in range and resolves to the 5-element
sequence `[3, 19, 5, 3, 19]`: element 0 equals element 3 and elements 1 and 4
equal the last row. -/
theorem iloc_list_order_duplicates_wit :
    (∀ i ∈ ([3, -1, 5, 3, -1] : List Int),
      -(rows20.length : Int) ≤ i ∧ i < (rows20.length : Int)) ∧
    ilocList rows20 [3, -1, 5, 3, -1] = Except.ok [3, 19, 5, 3, 19] :=
  ⟨by decide,
    ((iloc_list_order_duplicates 0 rows20 [3, -1, 5, 3, -1] (by decide)).1).trans (by rfl)⟩

theorem expandRows_isOk (mapping : List (Int × α)) (ids : List Int) :
    (expandRows mapping ids).isOk = ids.all (fun i => (mapping.lookup i).isSome) := by
  induction ids with
  | nil => rfl
  | cons i rest ih =>
    cases h : mapping.lookup i with
    | none => simp [expandRows, h, Except.isOk, Except.toBool]
    | some r =>
      cases h2 : expandRows mapping rest with
      | error e =>
        rw [h2] at ih
        simp [expandRows, h, h2, Except.isOk, Except.toBool, ← ih]
      | ok out =>
        rw [h2] at ih
        simp [expandRows, h, h2, Except.isOk, Except.toBool, ← ih]

/-- C7 (counterexample).  The claim states that a single-index fetch
returning more than one row makes the resolver signal an
internal-consistency error.  On a two-row fetch result the int branch of
`IndexLoc.__getitem__` evaluates `fetchall()[0]`: the first row is returned
and no error of any kind is signalled. -/
theorem single_fetch_multirow_cex :
    takeFirstRow ([[1], [2]] : List (List Int)) = Except.ok [1] ∧
    (takeFirstRow ([[1], [2]] : List (List Int))).isOk = true :=
  ⟨rfl, rfl⟩

theorem expandRows_firstMissing (mapping : List (Int × α)) (ids : List Int) (i : Int)
    (h : firstMissing mapping ids = some i) :
    expandRows mapping ids = Except.error (PdbError.keyError i) := by
  induction ids with
  | nil => simp [firstMissing] at h
  | cons j rest ih =>
    cases hlk : mapping.lookup j with
    | none =>
      rw [firstMissing, hlk] at h
      simp only [Option.isSome_none, Bool.false_eq_true, if_false, Option.some.injEq] at h
      subst h
      simp [expandRows, hlk]
    | some r =>
      rw [firstMissing, hlk] at h
      simp only [Option.isSome_some, if_true] at h
      simp [expandRows, hlk, ih h]

/-- C7 (amended).  Handling of unexpected fetch shapes by the resolver: a
single-index fetch returning zero rows raises an error (the generic
`IndexError` produced by indexing the empty result list, not a dedicated
internal-consistency signal); a single-index fetch returning more than one
row silently returns the first row with no error; and the batched list fetch
errs exactly when some requested identity is missing from the fetched
mapping — in that case it raises the `KeyError` naming the first missing
identity in request order. -/
theorem fetch_consistency_handling (r : α) (rest : List α)
    (mapping : List (Int × α)) (ids : List Int) :
    takeFirstRow ([] : List α) = Except.error PdbError.listIndexError ∧
    takeFirstRow (r :: rest) = Except.ok r ∧
    (expandRows mapping ids).isOk = ids.all (fun i => (mapping.lookup i).isSome) ∧
    (∀ i, firstMissing mapping ids = some i →
      expandRows mapping ids = Except.error (PdbError.keyError i)) :=
  ⟨rfl, rfl, expandRows_isOk mapping ids,
    fun i h => expandRows_firstMissing mapping ids i h⟩

/-- C7 (witness).  On a fetched mapping holding only rowid 1, the request
expansion `[1, 3, 2]` finds identity 3 missing first and raises `KeyError`
naming 3. -/
theorem fetch_consistency_handling_wit :
    firstMissing [((1 : Int), (5 : Int))] [1, 3, 2] = some 3 ∧
    expandRows [((1 : Int), (5 : Int))] [1, 3, 2]
      = Except.error (PdbError.keyError 3) :=
  ⟨by decide,
    (fetch_consistency_handling (5 : Int) [] [((1 : Int), (5 : Int))] [1, 3, 2]).2.2.2
      3 (by decide)⟩

/-- C8.  A backing query that does not carry the literal rowid alias
`AS _rowid_` (the test `_create_and_get_temp_view` itself applies) makes
view creation fail fast with the configuration `ValueError`: the result is
the error, not an `ok` carrying an extended view registry, so no view is
created in the storage engine. -/
theorem view_query_alias_guard (views : List String) (viewName query : String)
    (h : queryHasRowidAlias query = false) :
    createAndGetTempView views viewName query = Except.error PdbError.valueError := by
  simp [createAndGetTempView, h]

/-- C8 (witness).  The query `SELECT a, b FROM t WHERE x == 3` omits the
rowid alias, and view creation on it fails with `ValueError`. -/
theorem view_query_alias_guard_wit :
    queryHasRowidAlias "SELECT a, b FROM t WHERE x == 3" = false ∧
    createAndGetTempView [] "_table_t_qqqqqqqqqq_" "SELECT a, b FROM t WHERE x == 3"
      = Except.error PdbError.valueError :=
  ⟨by decide, view_query_alias_guard _ _ _ (by decide)⟩

theorem fetchInFrom_nil_ids (rows : List α) (cur : Int) :
    fetchInFrom rows cur [] = [] :=
  fetchInFrom_eq_nil rows cur [] (by intro id h; cases h)

/-- C10 (counterexample).  The claim states that an empty normalized slice
leads to a storage-engine syntax error that propagates to the caller.  On
the three-row relation `[5, 6, 7]`, the slice `2:2` normalizes to no
indices and the membership tuple rendered by `sql_tuple` is `()`; SQLite
accepts an empty `IN ()` list (it matches no row), so the resolver returns
the empty list — `Except.ok []`, not an error. -/
theorem empty_slice_cex :
    ilocSlice ([5, 6, 7] : List Int) (some 2) (some 2) none = Except.ok [] ∧
    sql_tuple (sliceIds 3 (some 2) (some 2) none) = "()" :=
  ⟨rfl, rfl⟩

/-- C10 (amended).  A slice whose normalization yields no indices is not
short-circuited: the fetch is still issued, with the membership clause
rendered from the empty rowid list as `IN ()`; SQLite permits the empty
list, the fetch matches no row, and the caller receives the empty list
rather than an error. -/
theorem empty_slice_behavior (rows : List α) (start stop step : Option Int)
    (hstep : ¬step = some 0)
    (hempty : sliceIds rows.length start stop step = []) :
    ilocSlice rows start stop step = Except.ok ([] : List α) ∧
    sliceInClause (sliceIds rows.length start stop step) = "WHERE _rowid_ IN ()" := by
  constructor
  · simp only [ilocSlice, if_neg hstep, hempty, fetchIn, fetchInFrom_nil_ids, List.map_nil]
  · rw [hempty]; rfl

/-- C10 (witness).  The slice `2:2:1` over a three-row relation normalizes
to no indices; the issued membership clause is `WHERE _rowid_ IN ()` and the
result is the empty list. -/
theorem empty_slice_behavior_wit :
    (¬(some 1 : Option Int) = some 0) ∧
    sliceIds 3 (some 2) (some 2) (some 1) = [] ∧
    ilocSlice ([5, 6, 7] : List Int) (some 2) (some 2) (some 1) = Except.ok [] ∧
    sliceInClause (sliceIds 3 (some 2) (some 2) (some 1)) = "WHERE _rowid_ IN ()" := by
  refine ⟨by decide, by rfl, ?_, ?_⟩
  · exact (empty_slice_behavior ([5, 6, 7] : List Int)
      (some 2) (some 2) (some 1) (by decide) (by rfl)).1
  · exact (empty_slice_behavior ([5, 6, 7] : List Int)
      (some 2) (some 2) (some 1) (by decide) (by rfl)).2

theorem lookup_append_of_none (l : List (String × QueryOut)) (k : String) (v : QueryOut)
    (h : l.lookup k = none) : (l ++ [(k, v)]).lookup k = some v := by
  induction l with
  | nil => simp [List.lookup]
  | cons p l1 ih =>
    obtain ⟨k1, v1⟩ := p
    by_cases hk : k = k1
    · subst hk
      simp only [List.lookup, beq_self_eq_true] at h
      cases h
    · have hb : (k == k1) = false := beq_eq_false_iff_ne.mpr hk
      simp only [List.cons_append, List.lookup, hb] at h ⊢
      exact ih h

theorem sizeInv_cacheExecute (cfg : CacheConfig) (eng : Engine) (s : CacheState)
    (q : String) (h : SizeInvariant cfg eng s) :
    SizeInvariant cfg eng (cacheExecute cfg eng s q).2.1 := by
  obtain ⟨h1, h2⟩ := h
  by_cases hco : cfg.cacheOutput = false
  · simpa [cacheExecute, hco] using ⟨h1, h2⟩
  · cases hl : s.entries.lookup q with
    | some v => simpa [cacheExecute, if_neg hco, hl] using ⟨h1, h2⟩
    | none =>
      by_cases hadm : (eng.size q (eng.run q) ≤ cfg.maxItemSize ∧
          eng.size q (eng.run q) + s.mbSize ≤ cfg.maxDictSize)
      · have hst : (cacheExecute cfg eng s q).2.1
            = ⟨s.entries ++ [(q, eng.run q)], s.mbSize + eng.size q (eng.run q),
                s.readyCount⟩ := by
          simp [cacheExecute, if_neg hco, hl, if_pos hadm]
        rw [hst]
        rw [entriesSize] at h1
        constructor
        · simp only [entriesSize, List.map_append, List.sum_append, List.map_cons,
            List.map_nil, List.sum_cons, List.sum_nil, add_zero, h1]
        · show s.mbSize + eng.size q (eng.run q) ≤ cfg.maxDictSize
          linarith [hadm.2]
      · simpa [cacheExecute, if_neg hco, hl, if_neg hadm] using ⟨h1, h2⟩

theorem sizeInv_foldlExec (cfg : CacheConfig) (eng : Engine) (qs : List String)
    (s : CacheState) (h : SizeInvariant cfg eng s) :
    SizeInvariant cfg eng (qs.foldl (fun acc q => (cacheExecute cfg eng acc q).2.1) s) := by
  induction qs generalizing s with
  | nil => exact h
  | cons q rest ih => exact ih _ (sizeInv_cacheExecute cfg eng s q h)

theorem sizeInv_runOp (cfg : CacheConfig) (eng : Engine) (s : CacheState) (op : CacheOp)
    (h : SizeInvariant cfg eng s) : SizeInvariant cfg eng (runOp cfg eng s op) := by
  cases op with
  | exec q => exact sizeInv_cacheExecute cfg eng s q h
  | populate qs => exact sizeInv_foldlExec cfg eng qs s h

theorem sizeInv_runOps (cfg : CacheConfig) (eng : Engine) (ops : List CacheOp)
    (s : CacheState) (h : SizeInvariant cfg eng s) :
    SizeInvariant cfg eng (runOps cfg eng s ops) := by
  induction ops generalizing s with
  | nil => exact h
  | cons op rest ih => exact ih _ (sizeInv_runOp cfg eng s op h)

/-- C5.  Throughout any session — before and after every `execute` and every
`populate_table` call, i.e. in every state reachable from the freshly
constructed cache by any sequence of such calls — the running `mb_size`
counter equals the sum of the admitted entry sizes and never exceeds
`max_dict_size` (assuming the configured aggregate budget is not negative,
as the default 100 MB is). -/
theorem cache_size_invariant (cfg : CacheConfig) (eng : Engine)
    (h0 : 0 ≤ cfg.maxDictSize) (ops : List CacheOp) :
    SizeInvariant cfg eng (runOps cfg eng initState ops) := by
  refine sizeInv_runOps cfg eng ops initState ⟨?_, ?_⟩
  · simp [initState, entriesSize]
  · simpa [initState] using h0

/-- C5 (witness).  In the concrete admission scenario (budget 2 MB), the
invariant holds after the session `execute qa; populate_table` issuing `qb`. -/
theorem cache_size_invariant_wit :
    (0 : ℚ) ≤ cfgAdm.maxDictSize ∧
    SizeInvariant cfgAdm engAdm
      (runOps cfgAdm engAdm initState [CacheOp.exec "qa", CacheOp.populate ["qb"]]) :=
  ⟨by norm_num [cfgAdm],
    cache_size_invariant cfgAdm engAdm (by norm_num [cfgAdm]) _⟩

/-- C4.  On a cache miss (caching on, key absent), `execute` runs the engine
and measures the combined size of query text and result; the entry is
admitted exactly when that size is within `max_item_size` and, added to the
running total, within `max_dict_size`.  The first conjunct: the computed
result is returned in every case.  The second: on admission the entry is
stored and the total grows by the size.  The third: on rejection the item is
never cached and the state — `current_total_bytes` included — is left
unchanged. -/
theorem cache_admission_policy (cfg : CacheConfig) (eng : Engine) (s : CacheState)
    (q : String) (hco : cfg.cacheOutput = true) (hmiss : s.entries.lookup q = none) :
    (cacheExecute cfg eng s q).1 = eng.run q ∧
    ((eng.size q (eng.run q) ≤ cfg.maxItemSize ∧
        eng.size q (eng.run q) + s.mbSize ≤ cfg.maxDictSize) →
      (cacheExecute cfg eng s q).2.1
        = ⟨s.entries ++ [(q, eng.run q)], s.mbSize + eng.size q (eng.run q),
            s.readyCount⟩) ∧
    (¬(eng.size q (eng.run q) ≤ cfg.maxItemSize ∧
        eng.size q (eng.run q) + s.mbSize ≤ cfg.maxDictSize) →
      (cacheExecute cfg eng s q).2.1 = s) := by
  have hco' : ¬cfg.cacheOutput = false := by simp [hco]
  refine ⟨?_, ?_, ?_⟩
  · by_cases hadm : (eng.size q (eng.run q) ≤ cfg.maxItemSize ∧
        eng.size q (eng.run q) + s.mbSize ≤ cfg.maxDictSize)
    · simp [cacheExecute, if_neg hco', hmiss, if_pos hadm]
    · simp [cacheExecute, if_neg hco', hmiss, if_neg hadm]
  · intro hadm
    simp [cacheExecute, if_neg hco', hmiss, if_pos hadm]
  · intro hadm
    simp [cacheExecute, if_neg hco', hmiss, if_neg hadm]

/-- C4 (witness).  The concrete scenario of the claim with
`max_item_size = 1` and `max_dict_size = 2`: after the two `0.9` MB items
`qa` and `qb` are admitted the total is `1.8`; the `0.5` MB item `qc` is
within the per-item budget but `1.8 + 0.5 > 2`, so it is rejected and the
whole state — in particular `current_total_bytes = 1.8` — stays unchanged. -/
theorem cache_admission_policy_wit :
    cfgAdm.cacheOutput = true ∧
    stateAdm.entries.lookup "qc" = none ∧
    stateAdm.mbSize = 9 / 5 ∧
    ¬(engAdm.size "qc" (engAdm.run "qc") ≤ cfgAdm.maxItemSize ∧
      engAdm.size "qc" (engAdm.run "qc") + stateAdm.mbSize ≤ cfgAdm.maxDictSize) ∧
    (cacheExecute cfgAdm engAdm stateAdm "qc").2.1 = stateAdm := by
  have ne1 : ¬("qa" : String) = "qc" := by decide
  have ne2 : ¬("qb" : String) = "qc" := by decide
  have ne3 : ("qb" == "qa") = false := by decide
  have ne4 : ("qc" == "qa") = false := by decide
  have ne5 : ("qc" == "qb") = false := by decide
  have h1 : runOp cfgAdm engAdm initState (CacheOp.exec "qa")
      = ⟨[("qa", [[0]])], 9 / 10, 0⟩ := by
    norm_num [runOp, cacheExecute, cfgAdm, engAdm, initState, List.lookup, ne1]
  have h2 : runOp cfgAdm engAdm (⟨[("qa", [[0]])], 9 / 10, 0⟩ : CacheState)
      (CacheOp.exec "qb") = ⟨[("qa", [[0]]), ("qb", [[0]])], 9 / 5, 0⟩ := by
    norm_num [runOp, cacheExecute, cfgAdm, engAdm, List.lookup, ne2, ne3]
  have hstate : stateAdm = ⟨[("qa", [[0]]), ("qb", [[0]])], 9 / 5, 0⟩ := by
    show runOp cfgAdm engAdm (runOp cfgAdm engAdm initState (CacheOp.exec "qa"))
      (CacheOp.exec "qb") = _
    rw [h1, h2]
  have hmiss : stateAdm.entries.lookup "qc" = none := by
    rw [hstate]
    simp [List.lookup, ne4, ne5]
  have hrej : ¬(engAdm.size "qc" (engAdm.run "qc") ≤ cfgAdm.maxItemSize ∧
      engAdm.size "qc" (engAdm.run "qc") + stateAdm.mbSize ≤ cfgAdm.maxDictSize) := by
    rw [hstate]
    norm_num [engAdm, cfgAdm]
  refine ⟨rfl, hmiss, by rw [hstate], hrej, ?_⟩
  exact (cache_admission_policy cfgAdm engAdm stateAdm "qc" rfl hmiss).2.2 hrej

/-- C6 (counterexample).  The claim states that two `execute` calls with the
same query text always trigger exactly one engine execution.  With an engine
whose item measures 5 MB against a 1 MB per-item budget, the first call is a
miss whose entry is rejected, so the second call misses again: the two calls
perform two engine executions, not one. -/
theorem cache_idempotence_cex :
    (cacheExecute cfgAdm engBig initState "q").2.2
      + (cacheExecute cfgAdm engBig
          (cacheExecute cfgAdm engBig initState "q").2.1 "q").2.2 = 2 ∧
    ¬(2 = 1) := by
  have h1 : cacheExecute cfgAdm engBig initState "q" = ([[0]], initState, 1) := by
    norm_num [cacheExecute, cfgAdm, engBig, initState, List.lookup]
  rw [h1]
  rw [h1]
  norm_num

/-- C6 (amended).  When the first call on a query is a miss whose entry is
admitted (within both budgets, caching on), two successive `execute` calls
with the same literal text return the same result — the engine output — and
trigger exactly one engine execution: the first call executes once, the
second is a key hit with zero executions. -/
theorem cache_idempotence_admitted (cfg : CacheConfig) (eng : Engine) (s : CacheState)
    (q : String) (hco : cfg.cacheOutput = true) (hmiss : s.entries.lookup q = none)
    (hadm : eng.size q (eng.run q) ≤ cfg.maxItemSize ∧
      eng.size q (eng.run q) + s.mbSize ≤ cfg.maxDictSize) :
    (cacheExecute cfg eng s q).1 = eng.run q ∧
    (cacheExecute cfg eng (cacheExecute cfg eng s q).2.1 q).1 = eng.run q ∧
    (cacheExecute cfg eng s q).2.2 = 1 ∧
    (cacheExecute cfg eng (cacheExecute cfg eng s q).2.1 q).2.2 = 0 := by
  have hco' : ¬cfg.cacheOutput = false := by simp [hco]
  have hst : (cacheExecute cfg eng s q).2.1
      = ⟨s.entries ++ [(q, eng.run q)], s.mbSize + eng.size q (eng.run q),
          s.readyCount⟩ := by
    simp [cacheExecute, if_neg hco', hmiss, if_pos hadm]
  have hlook : (s.entries ++ [(q, eng.run q)]).lookup q = some (eng.run q) :=
    lookup_append_of_none s.entries q (eng.run q) hmiss
  refine ⟨?_, ?_, ?_, ?_⟩
  · simp [cacheExecute, if_neg hco', hmiss, if_pos hadm]
  · rw [hst]
    simp [cacheExecute, if_neg hco', hlook]
  · simp [cacheExecute, if_neg hco', hmiss, if_pos hadm]
  · rw [hst]
    simp [cacheExecute, if_neg hco', hlook]

/-- C6 (witness).  With 1 MB items under a 2 MB per-item and 5 MB aggregate
budget, executing `q` twice from the fresh cache performs one engine
execution then a pure key hit. -/
theorem cache_idempotence_admitted_wit :
    cfgOk.cacheOutput = true ∧
    initState.entries.lookup "q" = none ∧
    (engOk.size "q" (engOk.run "q") ≤ cfgOk.maxItemSize ∧
      engOk.size "q" (engOk.run "q") + initState.mbSize ≤ cfgOk.maxDictSize) ∧
    (cacheExecute cfgOk engOk initState "q").2.2 = 1 ∧
    (cacheExecute cfgOk engOk (cacheExecute cfgOk engOk initState "q").2.1 "q").2.2 = 0 := by
  have hadm : engOk.size "q" (engOk.run "q") ≤ cfgOk.maxItemSize ∧
      engOk.size "q" (engOk.run "q") + initState.mbSize ≤ cfgOk.maxDictSize := by
    norm_num [engOk, cfgOk, initState]
  have h := cache_idempotence_admitted cfgOk engOk initState "q" rfl rfl hadm
  exact ⟨rfl, rfl, hadm, h.2.2.1, h.2.2.2⟩

end PandasDb
